import Mathlib

/-!
Verification development for `mongoclusterbackup.py` (mongo-backup).

We embed the backup coordinator shallowly:
  * the runlist of `BackupCluster.backup` as a list of rollback-log
    mutations and retried step executions (`backup`),
  * `BackupCluster.run_step` as an explicit retry interpreter,
  * the per-shard lock-target selection of `BackupMongos.get_shards`,
  * `BackupCluster.wait_for_locks` as a polling loop over an abstract
    lock-state trace,
  * the queue-based parallel phases, `BackupShard.lock`,
    `BackupHost.mount_snapshot`, `BackupCluster.unlock_shards` and the
    config-server choice of `BackupCluster.__init__`.
Machine behaviour (command exit codes, lock states, replica-set status)
is abstracted as explicit function parameters; queues become lists.
-/

set_option maxRecDepth 4000

namespace MongoClusterBackup

/-- The named operations of `BackupCluster.backup` (forward steps and
rollback compensators; five names are used in both roles). -/
inductive Step
  | start_balancer
  | stop_balancer
  | wait_for_locks
  | config_server_stop
  | config_server_start
  | mongodump
  | lock_shards
  | unlock_shards
  | create_snapshots
  | remove_snapshots
  | mount_snapshots
  | take_tar_backups
  | unmount_snapshots
deriving DecidableEq, Repr

/-- One statement of the `backup` runlist: `rollback_steps.insert(0, s)`,
`rollback_steps.remove(s)`, or `run_step(s, tries)`. -/
inductive Action
  | push (s : Step)
  | remove (s : Step)
  | run (s : Step) (tries : Nat)
deriving DecidableEq, Repr

/-- Result of one `run_step` call: number of invocations of the step
function, number of 2-second sleeps, the compensator invocations of the
rollback drain (step, whether that compensator raised), and whether the
call returned normally (`ok = false` means `BackupAbortedException`). -/
structure StepRes where
  calls : Nat
  sleeps : Nat
  comps : List (Step × Bool)
  ok : Bool
deriving DecidableEq, Repr

/-- The rollback drain: every entry of `rollback_steps` is invoked in
list order inside a blanket try/except, so the outcome `rb s` of a
compensator is recorded but never interrupts the loop. -/
def drainList (rb : Step → Bool) (log : List Step) : List (Step × Bool) :=
  log.map (fun s => (s, rb s))

/-- `BackupCluster.run_step(function, tries)`.  `fwd j` tells whether the
j-th attempt of the function returns (true) or raises (false); `i` is the
index of the next attempt; the final argument is the number of attempts
remaining (`tries` initially).  On the last failed attempt the rollback
log is drained and `BackupAbortedException` is raised (`ok = false`). -/
def run_step (fwd : Nat → Bool) (rb : Step → Bool) (log : List Step) (i : Nat) :
    Nat → StepRes
  | 0 => ⟨0, 0, [], true⟩
  | Nat.succ r =>
    if fwd i then ⟨1, 0, [], true⟩
    else if r = 0 then ⟨1, 0, drainList rb log, false⟩
    else
      let rest := run_step fwd rb log (i + 1) r
      ⟨rest.calls + 1, rest.sleeps + 1, rest.comps, rest.ok⟩

/-- Coordinator state while executing the runlist: forward invocations in
order, sleep count, compensator invocations, whether
`BackupAbortedException` was raised, the rollback log (front = most
recently pushed), and whether a `rollback_steps.remove` missed
(`ValueError`, uncompensated crash). -/
structure RunState where
  calls : List Step
  sleeps : Nat
  comps : List (Step × Bool)
  aborted : Bool
  log : List Step
  crashed : Bool
deriving DecidableEq, Repr

def initState : RunState := ⟨[], 0, [], false, [], false⟩

/-- Execute one statement of the runlist.  `fwd s j` is the outcome of
the j-th attempt of forward step `s`; `rb s` is whether compensator `s`
raises when invoked during a drain. -/
def execAction (fwd : Step → Nat → Bool) (rb : Step → Bool)
    (st : RunState) (a : Action) : RunState :=
  if st.aborted || st.crashed then st
  else
    match a with
    | Action.push s => { st with log := s :: st.log }
    | Action.remove s =>
        if s ∈ st.log then { st with log := st.log.erase s }
        else { st with crashed := true }
    | Action.run s tries =>
        let r := run_step (fwd s) rb st.log 0 tries
        { st with
            calls := st.calls ++ List.replicate r.calls s
            sleeps := st.sleeps + r.sleeps
            comps := st.comps ++ r.comps
            aborted := !r.ok }

/-- The runlist of `BackupCluster.backup`, transcribed statement by
statement from the source (lines 511-546). -/
def backup : List Action := [
  Action.push Step.start_balancer,
  Action.run Step.stop_balancer 2,
  Action.run Step.wait_for_locks 1,
  Action.push Step.config_server_start,
  Action.run Step.config_server_stop 1,
  Action.run Step.mongodump 3,
  Action.push Step.unlock_shards,
  Action.run Step.lock_shards 1,
  Action.push Step.remove_snapshots,
  Action.run Step.create_snapshots 1,
  Action.remove Step.unlock_shards,
  Action.run Step.unlock_shards 2,
  Action.remove Step.config_server_start,
  Action.run Step.config_server_start 2,
  Action.remove Step.start_balancer,
  Action.run Step.start_balancer 4,
  Action.push Step.unmount_snapshots,
  Action.run Step.mount_snapshots 1,
  Action.run Step.take_tar_backups 1,
  Action.remove Step.unmount_snapshots,
  Action.run Step.unmount_snapshots 1,
  Action.remove Step.remove_snapshots,
  Action.run Step.remove_snapshots 1
]

/-- Run the whole `backup` runlist under attempt outcomes `fwd` and
compensator outcomes `rb`. -/
def runScript (fwd : Step → Nat → Bool) (rb : Step → Bool) : RunState :=
  backup.foldl (execAction fwd rb) initState

/-- The forward steps of the runlist with their attempt budgets. -/
def forwardRuns : List (Step × Nat) :=
  backup.filterMap (fun a =>
    match a with
    | Action.run s t => some (s, t)
    | _ => none)

/-- The protocol table of the specification (§4.7): thirteen forward
steps with attempt budgets 2,1,1,3,1,1,2,2,4,1,1,1,1. -/
def protocolTable : List (Step × Nat) := [
  (Step.stop_balancer, 2),
  (Step.wait_for_locks, 1),
  (Step.config_server_stop, 1),
  (Step.mongodump, 3),
  (Step.lock_shards, 1),
  (Step.create_snapshots, 1),
  (Step.unlock_shards, 2),
  (Step.config_server_start, 2),
  (Step.start_balancer, 4),
  (Step.mount_snapshots, 1),
  (Step.take_tar_backups, 1),
  (Step.unmount_snapshots, 1),
  (Step.remove_snapshots, 1)
]

def protocolSteps : List Step := protocolTable.map Prod.fst

/-- Position of an action in the `backup` runlist (all 23 actions are
pairwise distinct, so this is unambiguous). -/
def idxOf (a : Action) : Nat := backup.findIdx (fun b => b == a)

/-- The n-th forward step of the protocol (0-based). -/
def nthStep (n : Fin 13) : Step := protocolSteps.getD n.1 Step.stop_balancer

/-- Rollback-log content at the moment the n-th forward step starts
(front = most recently pushed), read off the `backup` runlist. -/
def logBefore (n : Fin 13) : List Step :=
  ([[Step.start_balancer],
    [Step.start_balancer],
    [Step.config_server_start, Step.start_balancer],
    [Step.config_server_start, Step.start_balancer],
    [Step.unlock_shards, Step.config_server_start, Step.start_balancer],
    [Step.remove_snapshots, Step.unlock_shards, Step.config_server_start, Step.start_balancer],
    [Step.remove_snapshots, Step.config_server_start, Step.start_balancer],
    [Step.remove_snapshots, Step.start_balancer],
    [Step.remove_snapshots],
    [Step.unmount_snapshots, Step.remove_snapshots],
    [Step.unmount_snapshots, Step.remove_snapshots],
    [Step.remove_snapshots],
    []] : List (List Step)).getD n.1 []

/-- Attempt outcomes under which the n-th forward step raises on every
attempt and every other forward step returns on its first attempt. -/
def failFwd (n : Fin 13) : Step → Nat → Bool :=
  fun s _ => if s = nthStep n then false else true

/-- Replace the recorded compensator outcomes by those of `rb`. -/
def mapComps (rb : Step → Bool) (st : RunState) : RunState :=
  { st with comps := st.comps.map (fun p => (p.1, rb p.1)) }

lemma drainList_rb (rb : Step → Bool) (log : List Step) :
    drainList rb log = (drainList (fun _ => false) log).map (fun p => (p.1, rb p.1)) := by
  induction log with
  | nil => rfl
  | cons a l ih => simp [drainList] at ih ⊢

/-- Whether a compensator raises never influences `run_step`: the blanket
try/except of the rollback drain swallows every compensator exception. -/
lemma run_step_rb (fwd : Nat → Bool) (rb : Step → Bool) (log : List Step) :
    ∀ (n i : Nat), run_step fwd rb log i n =
      { run_step fwd (fun _ => false) log i n with
        comps := (run_step fwd (fun _ => false) log i n).comps.map
          (fun p => (p.1, rb p.1)) } := by
  intro n
  induction n with
  | zero => intro i; simp [run_step]
  | succ r ih =>
    intro i
    by_cases h : fwd i
    · simp [run_step, h]
    · by_cases hr : r = 0
      · subst hr
        simp [run_step, h, drainList_rb rb log]
      · simp [run_step, h, hr, ih (i + 1)]

lemma execAction_rb (fwd : Step → Nat → Bool) (rb : Step → Bool)
    (st : RunState) (a : Action) :
    execAction fwd rb (mapComps rb st) a = mapComps rb (execAction fwd (fun _ => false) st a) := by
  by_cases h : st.aborted || st.crashed
  · simp [execAction, mapComps, h]
  · cases a with
    | push s => simp [execAction, mapComps, h]
    | remove s =>
        by_cases hm : s ∈ st.log
        · simp [execAction, mapComps, h, hm]
        · simp [execAction, mapComps, h, hm]
    | run s tries =>
        simp only [execAction, mapComps, h]
        rw [run_step_rb (fwd s) rb st.log tries 0]
        simp [List.map_append]

lemma foldl_exec_rb (fwd : Step → Nat → Bool) (rb : Step → Bool) :
    ∀ (acts : List Action) (st : RunState),
      acts.foldl (execAction fwd rb) (mapComps rb st)
        = mapComps rb (acts.foldl (execAction fwd (fun _ => false)) st) := by
  intro acts
  induction acts with
  | nil => intro st; rfl
  | cons a as ih => intro st; simp only [List.foldl, execAction_rb, ih]

/-- A whole run of `backup` is unchanged — except for the recorded
compensator outcomes — when compensators raise differently: no
compensator exception aborts the rollback of later compensators. -/
lemma runScript_rb (fwd : Step → Nat → Bool) (rb : Step → Bool) :
    runScript fwd rb = mapComps rb (runScript fwd (fun _ => false)) := by
  have h : initState = mapComps rb initState := rfl
  rw [runScript, h, foldl_exec_rb]
  rfl

lemma runScript_aborted_base (n : Fin 13) :
    (runScript (failFwd n) (fun _ => false)).aborted = true := by
  fin_cases n <;> decide

lemma runScript_comps_base (n : Fin 13) :
    (runScript (failFwd n) (fun _ => false)).comps
      = (logBefore n).map (fun s => (s, false)) := by
  fin_cases n <;> decide

lemma logBefore_nodup (n : Fin 13) : (logBefore n).Nodup := by
  fin_cases n <;> decide

lemma run_step_first_try (fwd : Nat → Bool) (rb : Step → Bool) (log : List Step)
    (i r : Nat) (h : fwd i = true) :
    run_step fwd rb log i (Nat.succ r) = ⟨1, 0, [], true⟩ := by
  simp [run_step, h]

/-- C1: the thirteen forward steps of `BackupCluster.backup` run in
exactly the order stop_balancer, wait_for_locks, config_server.stop,
config_server.mongodump, lock_shards, create_snapshots, unlock_shards,
config_server.start, start_balancer, mount_snapshots, take_tar_backups,
unmount_snapshots, remove_snapshots with attempt budgets
2,1,1,3,1,1,2,2,4,1,1,1,1; each of the five compensators is pushed onto
the rollback log strictly before its forward step and removed strictly
before the corresponding permanent step (7, 8, 9, 12, 13) runs; and a
run in which every step succeeds on its first attempt invokes exactly
those thirteen steps in that order, never aborts and ends with an empty
rollback log. -/
theorem c1_backup_protocol :
    (forwardRuns = protocolTable
      ∧ idxOf (Action.push Step.start_balancer) < idxOf (Action.run Step.stop_balancer 2)
      ∧ idxOf (Action.push Step.config_server_start) < idxOf (Action.run Step.config_server_stop 1)
      ∧ idxOf (Action.push Step.unlock_shards) < idxOf (Action.run Step.lock_shards 1)
      ∧ idxOf (Action.push Step.remove_snapshots) < idxOf (Action.run Step.create_snapshots 1)
      ∧ idxOf (Action.push Step.unmount_snapshots) < idxOf (Action.run Step.mount_snapshots 1)
      ∧ idxOf (Action.remove Step.unlock_shards) < idxOf (Action.run Step.unlock_shards 2)
      ∧ idxOf (Action.remove Step.config_server_start) < idxOf (Action.run Step.config_server_start 2)
      ∧ idxOf (Action.remove Step.start_balancer) < idxOf (Action.run Step.start_balancer 4)
      ∧ idxOf (Action.remove Step.unmount_snapshots) < idxOf (Action.run Step.unmount_snapshots 1)
      ∧ idxOf (Action.remove Step.remove_snapshots) < idxOf (Action.run Step.remove_snapshots 1))
    ∧ (∀ (fwd : Step → Nat → Bool) (rb : Step → Bool), (∀ s, fwd s 0 = true) →
        (runScript fwd rb).calls = protocolSteps
          ∧ (runScript fwd rb).aborted = false
          ∧ (runScript fwd rb).comps = []
          ∧ (runScript fwd rb).log = []
          ∧ (runScript fwd rb).crashed = false) := by
  refine ⟨by decide, ?_⟩
  intro fwd rb h
  simp [runScript, backup, execAction, initState, protocolSteps, protocolTable,
    run_step_first_try, h]

/-- C1 witness: the all-success run instantiated concretely. -/
theorem c1_backup_protocol_witness :
    (∀ s : Step, (fun (_ : Step) (_ : Nat) => true) s 0 = true)
    ∧ (runScript (fun _ _ => true) (fun _ => false)).calls = protocolSteps
    ∧ (runScript (fun _ _ => true) (fun _ => false)).aborted = false :=
  ⟨fun _ => rfl,
    (c1_backup_protocol.2 (fun _ _ => true) (fun _ => false) (fun _ => rfl)).1,
    (c1_backup_protocol.2 (fun _ _ => true) (fun _ => false) (fun _ => rfl)).2.1⟩

/-- C2 counterexample: when `stop_balancer` raises on both attempts, the
run aborts with `stop_balancer` as its failed forward step (it is the
only step ever invoked), yet its compensator `start_balancer` — pushed
before the step ran — is invoked once during the drain, not zero times
as the claim states. -/
theorem c2_failed_step_compensator_counterexample :
    (runScript (fun _ _ => false) (fun _ => false)).calls
        = [Step.stop_balancer, Step.stop_balancer]
      ∧ (runScript (fun _ _ => false) (fun _ => false)).aborted = true
      ∧ ((runScript (fun _ _ => false) (fun _ => false)).comps.map Prod.fst).count
          Step.start_balancer = 1
      ∧ ¬ ((runScript (fun _ _ => false) (fun _ => false)).comps.map Prod.fst).count
          Step.start_balancer = 0 := by
  decide

/-- C2 (amended): for every aborted run of backup() — abort at the n-th
forward step — the rollback drain invokes exactly the compensators in
the log at abort time, in reverse push order (LIFO, duplicate-free, so
each exactly once and compensators not pushed or already removed exactly
zero times); this holds for every pattern `rb` of compensator
exceptions, i.e. an exception inside one compensator is swallowed and
does not prevent the remaining compensators from running.  The
compensator of the failing forward step itself is in the log (it was
pushed before the step), hence it is also invoked exactly once. -/
theorem c2_rollback_drain_amended :
    ∀ (n : Fin 13) (rb : Step → Bool),
      (runScript (failFwd n) rb).aborted = true
        ∧ (runScript (failFwd n) rb).comps = (logBefore n).map (fun s => (s, rb s))
        ∧ (logBefore n).Nodup := by
  intro n rb
  rw [runScript_rb]
  refine ⟨?_, ?_, logBefore_nodup n⟩
  · simpa [mapComps] using runScript_aborted_base n
  · simp [mapComps, runScript_comps_base n, List.map_map]

/-- C2 witness: the amended statement instantiated at an abort during
`create_snapshots` with a compensator (`unlock_shards`) that raises. -/
theorem c2_rollback_drain_amended_witness :
    (runScript (failFwd 5) (fun s => if s = Step.unlock_shards then true else false)).comps
      = [(Step.remove_snapshots, false), (Step.unlock_shards, true),
         (Step.config_server_start, false), (Step.start_balancer, false)] :=
  (c2_rollback_drain_amended 5 (fun s => if s = Step.unlock_shards then true else false)).2.1

lemma run_step_all_fail (fwd : Nat → Bool) (rb : Step → Bool) (log : List Step) :
    ∀ (n : Nat), 1 ≤ n → ∀ (i : Nat), (∀ j, j < n → fwd (i + j) = false) →
      run_step fwd rb log i n = ⟨n, n - 1, drainList rb log, false⟩ := by
  intro n
  induction n with
  | zero => intro h; omega
  | succ m ih =>
    intro _ i h
    have h0 : fwd i = false := by simpa using h 0 (Nat.succ_pos m)
    by_cases hm : m = 0
    · subst hm
      simp [run_step, h0]
    · have hrest := ih (Nat.one_le_iff_ne_zero.mpr hm) (i + 1)
        (fun j hj => by
          have := h (j + 1) (by omega)
          simpa [Nat.add_assoc, Nat.add_comm 1 j] using this)
      simp [run_step, h0, hm, hrest]
      omega

lemma run_step_succeeds (fwd : Nat → Bool) (rb : Step → Bool) (log : List Step) :
    ∀ (n : Nat) (i k : Nat), 1 ≤ k → k ≤ n →
      (∀ j, j < k - 1 → fwd (i + j) = false) → fwd (i + (k - 1)) = true →
      run_step fwd rb log i n = ⟨k, k - 1, [], true⟩ := by
  intro n
  induction n with
  | zero => intro i k h1 h2; omega
  | succ m ih =>
    intro i k h1 h2 hfail hsucc
    by_cases hk : k = 1
    · subst hk
      have : fwd i = true := by simpa using hsucc
      cases m with
      | zero => simp [run_step, this]
      | succ m2 => simp [run_step, this]
    · have hk2 : 2 ≤ k := by omega
      have h0 : fwd i = false := by simpa using hfail 0 (by omega)
      have hm : m ≠ 0 := by omega
      have hrest := ih (i + 1) (k - 1) (by omega) (by omega)
        (fun j hj => by
          have := hfail (j + 1) (by omega)
          simpa [Nat.add_assoc, Nat.add_comm 1 j] using this)
        (by
          have : i + 1 + (k - 1 - 1) = i + (k - 1) := by omega
          rw [this]; exact hsucc)
      simp [run_step, h0, hm, hrest]
      omega

/-- C5: `run_step(f, tries=n)` with n ≥ 1.  If every attempt of f
raises, f is invoked exactly n times with a 2-second sleep between
consecutive attempts (n-1 sleeps), the rollback log is drained, and
`BackupAbortedException` is raised (`ok = false`).  If the k-th attempt
(k ≤ n) is the first to succeed, f is invoked exactly k times, the call
returns normally and no rollback occurs. -/
theorem c5_run_step_retry :
    ∀ (fwd : Nat → Bool) (rb : Step → Bool) (log : List Step) (n : Nat), 1 ≤ n →
      ((∀ i, i < n → fwd i = false) →
        run_step fwd rb log 0 n = ⟨n, n - 1, drainList rb log, false⟩)
      ∧ (∀ k, 1 ≤ k → k ≤ n → (∀ i, i < k - 1 → fwd i = false) → fwd (k - 1) = true →
        run_step fwd rb log 0 n = ⟨k, k - 1, [], true⟩) := by
  intro fwd rb log n h1
  constructor
  · intro hall
    exact run_step_all_fail fwd rb log n h1 0 (fun j hj => by simpa using hall j hj)
  · intro k hk1 hk2 hfail hsucc
    exact run_step_succeeds fwd rb log n 0 k hk1 hk2
      (fun j hj => by simpa using hfail j hj) (by simpa using hsucc)

/-- C5 witness: 2 tries that both fail drain the one-entry rollback log
after 2 calls and 1 sleep; 3 tries with success on attempt 2 return
normally after 2 calls and no rollback. -/
theorem c5_run_step_retry_witness :
    run_step (fun _ => false) (fun _ => false) [Step.start_balancer] 0 2
        = ⟨2, 1, [(Step.start_balancer, false)], false⟩
      ∧ run_step (fun i => if i = 1 then true else false) (fun _ => false) [] 0 3
        = ⟨2, 1, [], true⟩ :=
  ⟨(c5_run_step_retry (fun _ => false) (fun _ => false) [Step.start_balancer] 2
      (by decide)).1 (fun i _ => rfl),
    (c5_run_step_retry (fun i => if i = 1 then true else false) (fun _ => false) [] 3
      (by decide)).2 2 (by decide) (by decide)
      (fun i hi => by
        have h0 : i = 0 := by omega
        subst h0
        rfl)
      (by decide)⟩

/-- `BackupCluster.wait_for_locks` loop.  `held t` abstracts whether
`self.mongos.get_locks()` is non-empty after `t` of the 5-second sleeps;
`r` is the `retries` counter (equal to the number of sleeps so far) and
the second argument is `360 - retries`, so the loop body runs while
locks are held and `retries < 360`. -/
def waitLoop (held : Nat → Bool) : Nat → Nat → Nat
  | r, 0 => r
  | r, Nat.succ fuel => if held r then waitLoop held (r + 1) fuel else r

/-- `BackupCluster.wait_for_locks`: after the loop, `get_locks()` is
queried once more and the exception raised if locks are still held. -/
def wait_for_locks (held : Nat → Bool) : Except String Unit :=
  let r := waitLoop held 0 360
  if held r then Except.error "Something is still locking the cluster, aborting backup"
  else Except.ok ()

lemma waitLoop_le (held : Nat → Bool) :
    ∀ (fuel r : Nat), r ≤ waitLoop held r fuel ∧ waitLoop held r fuel ≤ r + fuel := by
  intro fuel
  induction fuel with
  | zero => intro r; simp [waitLoop]
  | succ f ih =>
    intro r
    by_cases h : held r
    · have := ih (r + 1)
      constructor
      · simp [waitLoop, h]; omega
      · simp [waitLoop, h]; omega
    · simp [waitLoop, h]

lemma waitLoop_stop (held : Nat → Bool) :
    ∀ (fuel r : Nat), held (waitLoop held r fuel) = false ∨ waitLoop held r fuel = r + fuel := by
  intro fuel
  induction fuel with
  | zero => intro r; right; simp [waitLoop]
  | succ f ih =>
    intro r
    by_cases h : held r
    · rcases ih (r + 1) with h2 | h2
      · left; simpa [waitLoop, h] using h2
      · right; simp [waitLoop, h, h2]; omega
    · left
      simp only [waitLoop, if_neg h]
      simpa using h

lemma waitLoop_min (held : Nat → Bool) :
    ∀ (fuel r : Nat) (t : Nat), r ≤ t → t < waitLoop held r fuel → held t = true := by
  intro fuel
  induction fuel with
  | zero => intro r t h1 h2; simp [waitLoop] at h2; omega
  | succ f ih =>
    intro r t h1 h2
    by_cases h : held r
    · rcases Nat.eq_or_lt_of_le h1 with rfl | hlt
      · simpa using h
      · exact ih (r + 1) t hlt (by simpa [waitLoop, h] using h2)
    · simp [waitLoop, h] at h2
      omega

/-- C4 counterexample: the claim says a lock only released at attempt
360 makes `wait_for_locks` fail, but the loop condition re-queries the
lock set at `retries = 360` and the final `if` re-queries once more, so
the code polls 361 times.  A lock held for the first 359 polls and
released at the 360th (1-based numbering: released at attempt 360), and
likewise one held for the first 360 polls and released at the 361st,
both return normally. -/
theorem c4_wait_for_locks_counterexample :
    wait_for_locks (fun t => decide (t < 359)) = Except.ok ()
      ∧ wait_for_locks (fun t => decide (t < 360)) = Except.ok () :=
  ⟨rfl, rfl⟩

/-- C4 (amended): `wait_for_locks` polls the held-lock set every 5
seconds with at most 360 sleeps, observing it at retry counts 0 through
360 — 361 polls in total.  It returns normally iff some poll `t ≤ 360`
sees no held lock (in particular, one lock released at attempt 359
succeeds, and one released only at attempt 360 also succeeds), and it
raises the ClusterLockedError-kind exception iff locks are held at all
361 polls. -/
theorem c4_wait_for_locks_amended :
    ∀ (held : Nat → Bool),
      wait_for_locks held = Except.ok () ↔ ∃ t, t ≤ 360 ∧ held t = false := by
  intro held
  constructor
  · intro h
    by_cases hr : held (waitLoop held 0 360)
    · simp [wait_for_locks, hr] at h
    · exact ⟨waitLoop held 0 360, by simpa using (waitLoop_le held 360 0).2,
        by simpa using hr⟩
  · rintro ⟨t, ht, hfalse⟩
    have hstop := waitLoop_stop held 360 0
    have hok : held (waitLoop held 0 360) = false := by
      rcases hstop with h | h
      · exact h
      · rcases Nat.lt_or_ge t (waitLoop held 0 360) with hlt | hge
        · have := waitLoop_min held 360 0 t (Nat.zero_le t) hlt
          rw [this] at hfalse
          exact absurd hfalse (by simp)
        · have : t = waitLoop held 0 360 := by omega
          rw [← this]
          exact hfalse
    simp [wait_for_locks, hok]

/-- C4 witness: one lock released at attempt 359 returns normally, and a
lock never released raises. -/
theorem c4_wait_for_locks_amended_witness :
    wait_for_locks (fun t => decide (t < 358)) = Except.ok ()
      ∧ ¬ wait_for_locks (fun _ => true) = Except.ok () :=
  ⟨(c4_wait_for_locks_amended (fun t => decide (t < 358))).mpr ⟨358, by decide, by decide⟩,
    fun h => by
      rcases (c4_wait_for_locks_amended (fun _ => true)).mp h with ⟨t, _, hfalse⟩
      exact absurd hfalse (by simp)⟩

/-- One member document of `replSetGetStatus` as read by `get_shards`:
`state` (1 = primary, 2 = secondary), `health` (truthy = up) and the
optime timestamp. -/
structure Member where
  name : String
  state : Nat
  health : Nat
  optimeDate : Nat
deriving DecidableEq, Repr

/-- `[member for member in rs.members if member.state == 2 and int(member.health)]` -/
def goodSecondaries (members : List Member) : List Member :=
  members.filter (fun m => m.state == 2 && m.health != 0)

/-- `[member for member in rs.members if member.state == 1]` -/
def primaries (members : List Member) : List Member :=
  members.filter (fun m => m.state == 1)

/-- Stable insertion for descending optime order (equal keys keep their
original relative order, as Python's stable `sorted` does). -/
def insertByOptimeDesc (m : Member) : List Member → List Member
  | [] => [m]
  | b :: bs => if b.optimeDate < m.optimeDate then m :: b :: bs else b :: insertByOptimeDesc m bs

/-- `sorted(good_secondaries, key=lambda x: x.optimeDate, reverse=True)`. -/
def sortByOptimeDesc (l : List Member) : List Member :=
  l.foldl (fun acc m => insertByOptimeDesc m acc) []

/-- Per-shard body of `BackupMongos.get_shards`: a host string containing
a slash is a replica set whose `replSetGetStatus` members are given; the
sorted best healthy secondary is taken, else `members[state == 1][0]`
(an IndexError on an empty selection); a standalone host string is
returned verbatim. -/
def get_shard_target (host : String) (members : List Member) : Except String String :=
  if host.toList.contains '/' then
    let good := goodSecondaries members
    if good.length != 0 then
      match sortByOptimeDesc good with
      | best :: _ => Except.ok best.name
      | [] => Except.error "unreachable: sort of a non-empty list is non-empty"
    else
      match primaries members with
      | master :: _ => Except.ok master.name
      | [] => Except.error "IndexError: list index out of range"
  else
    Except.ok host

/-- `BackupMongos.get_shards` over the shard documents. -/
def get_shards (shards : List (String × List Member)) : Except String (List String) :=
  shards.mapM (fun p => get_shard_target p.1 p.2)

/-- The head of a member list bounds every element's optime. -/
def headIsMax : List Member → Prop
  | [] => True
  | h :: t => ∀ x ∈ h :: t, x.optimeDate ≤ h.optimeDate

lemma mem_insertByOptimeDesc (x m : Member) :
    ∀ (l : List Member), x ∈ insertByOptimeDesc m l ↔ x = m ∨ x ∈ l := by
  intro l
  induction l with
  | nil => simp [insertByOptimeDesc]
  | cons b bs ih =>
    simp only [insertByOptimeDesc]
    by_cases h : b.optimeDate < m.optimeDate
    · rw [if_pos h]
      simp [List.mem_cons]
    · rw [if_neg h]
      simp only [List.mem_cons, ih]
      tauto

lemma headIsMax_insert (m : Member) :
    ∀ (l : List Member), headIsMax l → headIsMax (insertByOptimeDesc m l) := by
  intro l hl
  cases l with
  | nil =>
    intro x hx
    have : x = m := by simpa [insertByOptimeDesc] using hx
    simp [this]
  | cons b bs =>
    by_cases h : b.optimeDate < m.optimeDate
    · simp only [insertByOptimeDesc, if_pos h]
      intro x hx
      rcases List.mem_cons.mp hx with hx | hx
      · subst hx; exact Nat.le_refl _
      · have := hl x hx
        omega
    · simp only [insertByOptimeDesc, if_neg h]
      intro x hx
      rcases List.mem_cons.mp hx with hx | hx
      · subst hx; exact Nat.le_refl _
      · rcases (mem_insertByOptimeDesc x m bs).mp hx with hx | hx
        · subst hx; omega
        · exact hl x (List.mem_cons_of_mem b hx)

lemma foldl_insert_mem (x : Member) :
    ∀ (l acc : List Member),
      (x ∈ l.foldl (fun a m => insertByOptimeDesc m a) acc ↔ x ∈ acc ∨ x ∈ l) := by
  intro l
  induction l with
  | nil => intro acc; simp
  | cons b bs ih =>
    intro acc
    simp only [List.foldl_cons, ih, mem_insertByOptimeDesc, List.mem_cons]
    tauto

lemma foldl_insert_headIsMax :
    ∀ (l acc : List Member), headIsMax acc →
      headIsMax (l.foldl (fun a m => insertByOptimeDesc m a) acc) := by
  intro l
  induction l with
  | nil => intro acc h; exact h
  | cons b bs ih =>
    intro acc h
    exact ih _ (headIsMax_insert b acc h)

/-- The first element of the descending sort is a member of the list and
has the maximal optime. -/
lemma sortByOptimeDesc_best (l : List Member) (hne : l ≠ []) :
    ∃ best rest, sortByOptimeDesc l = best :: rest ∧ best ∈ l ∧
      ∀ x ∈ l, x.optimeDate ≤ best.optimeDate := by
  have hmem : ∀ x, x ∈ sortByOptimeDesc l ↔ x ∈ l := by
    intro x
    simpa [sortByOptimeDesc] using foldl_insert_mem x l []
  have hmax : headIsMax (sortByOptimeDesc l) :=
    foldl_insert_headIsMax l [] (by trivial)
  rcases l with _ | ⟨a, as⟩
  · exact absurd rfl hne
  · have ha : a ∈ sortByOptimeDesc (a :: as) := (hmem a).mpr (List.mem_cons_self a as)
    rcases hs : sortByOptimeDesc (a :: as) with _ | ⟨best, rest⟩
    · rw [hs] at ha; exact absurd ha (List.not_mem_nil a)
    · refine ⟨best, rest, rfl, ?_, ?_⟩
      · have : best ∈ sortByOptimeDesc (a :: as) := by rw [hs]; exact List.mem_cons_self _ _
        exact (hmem best).mp this
      · intro x hx
        have hx2 : x ∈ sortByOptimeDesc (a :: as) := (hmem x).mpr hx
        rw [hs] at hx2
        have hm2 := hmax
        rw [hs] at hm2
        exact hm2 x hx2

/-- C3: on a replica-set shard entry, `get_shards` picks a healthy
secondary (state 2, health truthy) of maximal optime when one exists,
else the first member with state 1 (the primary), else it fails with a
NoLockTargetError-kind error (an IndexError on the empty primary
selection); a standalone host string (no slash) is returned verbatim. -/
theorem c3_get_shards_lock_target : ∀ (host : String) (members : List Member),
    (host.toList.contains '/' = false → get_shard_target host members = Except.ok host)
    ∧ (host.toList.contains '/' = true → goodSecondaries members ≠ [] →
        ∃ best, best ∈ goodSecondaries members
          ∧ (∀ m ∈ goodSecondaries members, m.optimeDate ≤ best.optimeDate)
          ∧ get_shard_target host members = Except.ok best.name)
    ∧ (host.toList.contains '/' = true → goodSecondaries members = [] →
        ∀ p ps, primaries members = p :: ps →
          get_shard_target host members = Except.ok p.name)
    ∧ (host.toList.contains '/' = true → goodSecondaries members = [] →
        primaries members = [] →
          ∃ e, get_shard_target host members = Except.error e) := by
  intro host members
  refine ⟨?_, ?_, ?_, ?_⟩
  · intro h
    have h2 : ¬ ('/' ∈ host.data) := by simpa [String.toList] using h
    simp [get_shard_target, h2]
  · intro h hne
    have h2 : '/' ∈ host.data := by simpa [String.toList] using h
    rcases sortByOptimeDesc_best (goodSecondaries members) hne with ⟨best, rest, hs, hmem, hmax⟩
    refine ⟨best, hmem, hmax, ?_⟩
    have hlen : (goodSecondaries members).length ≠ 0 := by
      simpa [List.length_eq_zero] using hne
    simp [get_shard_target, h2, hlen, hs]
  · intro h hempty p ps hp
    have h2 : '/' ∈ host.data := by simpa [String.toList] using h
    simp [get_shard_target, h2, hempty, hp]
  · intro h hempty hprim
    have h2 : '/' ∈ host.data := by simpa [String.toList] using h
    exact ⟨"IndexError: list index out of range",
      by simp [get_shard_target, h2, hempty, hprim]⟩

/-- C3 witness: a replica set whose best healthy secondary (largest
optime) is chosen; a replica set with no healthy secondary falling back
to the primary; a replica set with neither failing; and a standalone
host returned verbatim. -/
theorem c3_get_shards_lock_target_witness :
    (∃ best, best ∈ goodSecondaries
          [⟨"p:27017", 1, 1, 9⟩, ⟨"a:27017", 2, 1, 5⟩, ⟨"b:27017", 2, 1, 9⟩]
        ∧ (∀ m ∈ goodSecondaries
            [⟨"p:27017", 1, 1, 9⟩, ⟨"a:27017", 2, 1, 5⟩, ⟨"b:27017", 2, 1, 9⟩],
            m.optimeDate ≤ best.optimeDate)
        ∧ get_shard_target "rs0/a:27017,b:27017"
            [⟨"p:27017", 1, 1, 9⟩, ⟨"a:27017", 2, 1, 5⟩, ⟨"b:27017", 2, 1, 9⟩]
          = Except.ok best.name)
    ∧ get_shard_target "rs0/p:27017" [⟨"p:27017", 1, 1, 9⟩, ⟨"s:27017", 2, 0, 9⟩]
        = Except.ok "p:27017"
    ∧ (∃ e, get_shard_target "rs0/x:27017" [⟨"x:27017", 3, 0, 0⟩] = Except.error e)
    ∧ get_shard_target "h1:27017" [] = Except.ok "h1:27017" :=
  ⟨(c3_get_shards_lock_target "rs0/a:27017,b:27017"
      [⟨"p:27017", 1, 1, 9⟩, ⟨"a:27017", 2, 1, 5⟩, ⟨"b:27017", 2, 1, 9⟩]).2.1
      rfl (by decide),
    (c3_get_shards_lock_target "rs0/p:27017"
      [⟨"p:27017", 1, 1, 9⟩, ⟨"s:27017", 2, 0, 9⟩]).2.2.1
      rfl (by decide) ⟨"p:27017", 1, 1, 9⟩ [] (by decide),
    (c3_get_shards_lock_target "rs0/x:27017" [⟨"x:27017", 3, 0, 0⟩]).2.2.2
      rfl (by decide) (by decide),
    (c3_get_shards_lock_target "h1:27017" []).1 rfl⟩

/-- Lexicographic (code-point) comparison of character lists, the order
Python's `sorted` uses on strings. -/
def leChars : List Char → List Char → Bool
  | [], _ => true
  | _ :: _, [] => false
  | a :: as, b :: bs => if a < b then true else if b < a then false else leChars as bs

def strLe (a b : String) : Bool := leChars a.toList b.toList

lemma leChars_total : ∀ as bs, leChars as bs = true ∨ leChars bs as = true := by
  intro as
  induction as with
  | nil => intro bs; left; simp [leChars]
  | cons a as ih =>
    intro bs
    cases bs with
    | nil => right; simp [leChars]
    | cons b bs2 =>
      by_cases hab : a < b
      · left; simp [leChars, hab]
      · by_cases hba : b < a
        · right; simp [leChars, hba]
        · rcases ih bs2 with h | h
          · left; simp [leChars, hab, hba, h]
          · right; simp [leChars, hba, hab, h]

lemma leChars_trans :
    ∀ as bs cs, leChars as bs = true → leChars bs cs = true → leChars as cs = true := by
  intro as
  induction as with
  | nil => intro bs cs h1 h2; simp [leChars]
  | cons a as ih =>
    intro bs cs h1 h2
    cases bs with
    | nil => simp [leChars] at h1
    | cons b bs2 =>
      cases cs with
      | nil => simp [leChars] at h2
      | cons c cs2 =>
        by_cases hab : a < b
        · by_cases hbc : b < c
          · simp [leChars, lt_trans hab hbc]
          · by_cases hcb : c < b
            · simp [leChars, hbc, hcb] at h2
            · have hbc2 : b = c := le_antisymm (not_lt.mp hcb) (not_lt.mp hbc)
              have hac : a < c := hbc2 ▸ hab
              simp [leChars, hac]
        · by_cases hba : b < a
          · simp [leChars, hab, hba] at h1
          · have heq : a = b := le_antisymm (not_lt.mp hba) (not_lt.mp hab)
            subst heq
            simp only [leChars, lt_irrefl, if_false] at h1
            by_cases hac : a < c
            · simp [leChars, hac]
            · by_cases hca : c < a
              · simp [leChars, hac, hca] at h2
              · simp only [leChars, if_neg hac, if_neg hca] at h2 ⊢
                exact ih bs2 cs2 h1 h2

lemma leChars_antisymm :
    ∀ as bs, leChars as bs = true → leChars bs as = true → as = bs := by
  intro as
  induction as with
  | nil =>
    intro bs h1 h2
    cases bs with
    | nil => rfl
    | cons b bs2 => simp [leChars] at h2
  | cons a as ih =>
    intro bs h1 h2
    cases bs with
    | nil => simp [leChars] at h1
    | cons b bs2 =>
      by_cases hab : a < b
      · simp [leChars, hab, lt_asymm hab] at h2
      · by_cases hba : b < a
        · simp [leChars, hba, hab] at h1
        · have heq : a = b := le_antisymm (not_lt.mp hba) (not_lt.mp hab)
          subst heq
          simp only [leChars, lt_irrefl, if_false] at h1 h2
          rw [ih bs2 h1 h2]

instance : IsTotal String (fun a b => strLe a b = true) :=
  ⟨fun a b => leChars_total a.toList b.toList⟩

instance : IsTrans String (fun a b => strLe a b = true) :=
  ⟨fun a b c => leChars_trans a.toList b.toList c.toList⟩

instance : IsAntisymm String (fun a b => strLe a b = true) :=
  ⟨fun a b h1 h2 => by
    have := leChars_antisymm a.toList b.toList h1 h2
    exact String.ext this⟩

/-- Python `configdb.split(',')` on the character list. -/
def splitComma : List Char → List (List Char)
  | [] => [[]]
  | c :: cs =>
    if c = ',' then [] :: splitComma cs
    else
      match splitComma cs with
      | [] => [[c]]
      | w :: ws => (c :: w) :: ws

/-- `BackupMongos.get_config_servers` before the shuffle: the comma-split
of the router's `configdb` option.  `random.shuffle` is modelled by
quantifying over every permutation of this list (see C9). -/
def get_config_servers (configdb : String) : List String :=
  (splitComma configdb.toList).map (fun w => String.mk w)

/-- `sorted(...)` as applied by `BackupCluster.__init__`. -/
def sortedServers (servers : List String) : List String :=
  List.insertionSort (fun a b => strLe a b = true) servers

/-- `sorted(self.mongos.get_config_servers())[0]` of
`BackupCluster.__init__` (as `Option` to keep selection total). -/
def choose_config_server (servers : List String) : Option String :=
  (sortedServers servers).head?

lemma sortedServers_perm_eq (l1 l2 : List String) (h : l1.Perm l2) :
    sortedServers l1 = sortedServers l2 :=
  List.eq_of_perm_of_sorted
    (((List.perm_insertionSort _ l1).trans h).trans (List.perm_insertionSort _ l2).symm)
    (List.sorted_insertionSort _ l1)
    (List.sorted_insertionSort _ l2)

/-- C9: the config server chosen by `BackupCluster.__init__` is
deterministic — whatever two shuffled orders `get_config_servers`
returns for the same `configdb` string, the coordinator selects the
same host, namely the first element of the sorted list; the
randomization has no effect on the choice. -/
theorem c9_config_server_choice :
    ∀ (configdb : String) (l1 l2 : List String),
      l1.Perm (get_config_servers configdb) → l2.Perm (get_config_servers configdb) →
      choose_config_server l1 = choose_config_server l2
        ∧ choose_config_server l1 = (sortedServers (get_config_servers configdb)).head? := by
  intro configdb l1 l2 h1 h2
  constructor
  · rw [choose_config_server, choose_config_server,
      sortedServers_perm_eq l1 l2 (h1.trans h2.symm)]
  · rw [choose_config_server, sortedServers_perm_eq l1 _ h1]

/-- C9 witness: the two orders of `"c1:27019,c2:27019"` give the same
choice, the first element of the sorted list — concretely `c1:27019`. -/
theorem c9_config_server_choice_witness :
    choose_config_server ["c2:27019", "c1:27019"]
        = choose_config_server ["c1:27019", "c2:27019"]
      ∧ choose_config_server ["c2:27019", "c1:27019"]
        = (sortedServers (get_config_servers "c1:27019,c2:27019")).head?
      ∧ choose_config_server ["c2:27019", "c1:27019"] = some "c1:27019" :=
  ⟨(c9_config_server_choice "c1:27019,c2:27019" ["c2:27019", "c1:27019"]
      ["c1:27019", "c2:27019"] (by decide) (by decide)).1,
    (c9_config_server_choice "c1:27019,c2:27019" ["c2:27019", "c1:27019"]
      ["c1:27019", "c2:27019"] (by decide) (by decide)).2,
    by decide⟩

/-- One worker thread of a parallel phase: the messages it `put` into
the shared error queue before finishing, and whether its body died with
an uncaught exception afterwards (swallowed by `threading`). -/
structure Worker where
  deposits : List String
  crashed : Bool
deriving DecidableEq, Repr

/-- The error-queue content after all threads are joined (worker deposit
order abstracted as list order). -/
def channelOf (ws : List Worker) : List String := (ws.map Worker.deposits).flatten

/-- The fan-out pattern shared by lock_shards, create_snapshots,
mount_snapshots, take_tar_backups, unmount_snapshots and
remove_snapshots: join all threads, then
`if not errors.empty(): raise Exception(errors.get())`. -/
def run_parallel (ws : List Worker) : Except String Unit :=
  match channelOf ws with
  | [] => Except.ok ()
  | e :: _ => Except.error e

lemma channelOf_nil (ws : List Worker) (h : ∀ w ∈ ws, w.deposits = []) :
    channelOf ws = [] := by
  induction ws with
  | nil => rfl
  | cons w ws2 ih =>
    have h1 : w.deposits = [] := h w (List.mem_cons_self _ _)
    have h2 := ih (fun x hx => h x (List.mem_cons_of_mem _ hx))
    simp [channelOf] at h2 ⊢
    exact ⟨h1, h2⟩

/-- C10: a parallel phase fails iff some worker deposited a message into
the phase's error queue; the raised exception carries the first
deposited message; the phase outcome depends only on the deposited
messages — a worker body dying without depositing (its `crashed` flag)
is silently lost — and when no worker deposits anything the phase
reports success. -/
theorem c10_parallel_error_channel : ∀ (ws : List Worker),
    ((∃ e, run_parallel ws = Except.error e) ↔ channelOf ws ≠ [])
    ∧ (∀ e es, channelOf ws = e :: es → run_parallel ws = Except.error e)
    ∧ (∀ ws2 : List Worker, ws.map Worker.deposits = ws2.map Worker.deposits →
        run_parallel ws = run_parallel ws2)
    ∧ ((∀ w ∈ ws, w.deposits = []) → run_parallel ws = Except.ok ()) := by
  intro ws
  refine ⟨?_, ?_, ?_, ?_⟩
  · cases h : channelOf ws with
    | nil => simp [run_parallel, h]
    | cons e es => simp [run_parallel, h]
  · intro e es h
    simp [run_parallel, h]
  · intro ws2 h
    have : channelOf ws = channelOf ws2 := by
      simp only [channelOf, h]
    simp [run_parallel, this]
  · intro h
    simp [run_parallel, channelOf_nil ws h]

/-- C10 witness: a crashing worker that deposited nothing leaves the
phase reporting success, and two deposits surface only the first. -/
theorem c10_parallel_error_channel_witness :
    run_parallel [Worker.mk [] true] = Except.ok ()
      ∧ run_parallel [Worker.mk ["first error"] false, Worker.mk ["second error"] true]
        = Except.error "first error" :=
  ⟨(c10_parallel_error_channel [Worker.mk [] true]).2.2.2 (by decide),
    (c10_parallel_error_channel
      [Worker.mk ["first error"] false, Worker.mk ["second error"] true]).2.1
      "first error" ["second error"] rfl⟩

/-- Truthiness of the Python expression tested by `BackupShard.lock`:
`self.is_locked` without parentheses is the bound method object, which
is always truthy, not the `Bool` the method would return. -/
inductive PyTruth
  | pyBool (b : Bool)
  | boundMethod
deriving DecidableEq, Repr

def PyTruth.truthy : PyTruth → Bool
  | pyBool b => b
  | boundMethod => true

set_option linter.unusedVariables false in
/-- `BackupShard.lock` after `self.client.fsync(lock=True)`:
`if self.is_locked:` tests the bound method object (`PyTruth.boundMethod`),
so the error branch is unreachable whatever `is_locked()` would return
(`isLockedAfter`).  Returns the error-queue content after the call. -/
def BackupShard.lock (host : String) (isLockedAfter : Bool) (errors : List String) :
    List String :=
  let checkExpr : PyTruth := PyTruth.boundMethod
  if checkExpr.truthy then errors
  else errors ++ ["Cannot lock shard " ++ host]

/-- Modelled from the spec (§4.2; the spec declares the method form
canonical): `lock()` re-queries the lock state and deposits a LockError
message when the member is not locked. -/
def BackupShard.lock_intended (host : String) (isLockedAfter : Bool) (errors : List String) :
    List String :=
  if isLockedAfter then errors
  else errors ++ ["Cannot lock shard " ++ host]

/-- C6 (code bug): with the member not locked after the fsync
(`isLockedAfter = false`) the source deposits nothing — the truthy bound
method hides the failure — while the intended check deposits the
LockError message; when the member is locked neither deposits. -/
theorem c6_lock_check_bug :
    BackupShard.lock "s1:27018" false [] = []
      ∧ BackupShard.lock "s1:27018" true [] = []
      ∧ BackupShard.lock_intended "s1:27018" false [] = ["Cannot lock shard s1:27018"]
      ∧ BackupShard.lock_intended "s1:27018" true [] = [] :=
  ⟨rfl, rfl, rfl, rfl⟩

/-- Result of `BackupHost.mount_snapshot`: queue content at thread end,
whether a `mount` command was issued, and the uncaught exception (if
any) that killed the worker body. -/
structure MountResult where
  errorsOut : List String
  mountAttempted : Bool
  uncaught : Option String
deriving DecidableEq, Repr

/-- `BackupHost.mount_snapshot`.  In the empty-`snapshot_path` branch
the source calls `logging.err()`, an attribute that does not exist, so
an AttributeError is raised *before* `errors.put(err)`: nothing is
deposited and no mount is attempted.  Otherwise the mount is attempted
and a failure message deposited when it exits non-zero (`mountOk`). -/
def BackupHost.mount_snapshot (backupId host mountPoint snapshotPath : String)
    (mountOk : Bool) (errors : List String) : MountResult :=
  if snapshotPath = "" then
    ⟨errors, false, some "AttributeError: module logging has no attribute err"⟩
  else if mountOk then
    ⟨errors, true, none⟩
  else
    ⟨errors ++ ["Cannot mount snapshot " ++ backupId ++ " mounted to " ++ mountPoint
        ++ " on " ++ host], true, none⟩

/-- The worker a `mount_snapshot` call contributes to the
`mount_snapshots` phase (queue starts empty each phase). -/
def workerOfMount (r : MountResult) : Worker := ⟨r.errorsOut, r.uncaught.isSome⟩

/-- C7 (code bug): with no snapshot path recorded, `mount_snapshot`
attempts no mount but dies on the nonexistent `logging.err` before
depositing the SnapshotMissingError-kind message, so the surrounding
`mount_snapshots` phase sees an empty error queue and reports success
instead of failing. -/
theorem c7_mount_missing_path_bug :
    BackupHost.mount_snapshot "20240101-000000" "h1" "/mnt/snap" "" true []
        = ⟨[], false, some "AttributeError: module logging has no attribute err"⟩
      ∧ run_parallel [workerOfMount
          (BackupHost.mount_snapshot "20240101-000000" "h1" "/mnt/snap" "" true [])]
        = Except.ok () :=
  ⟨rfl, rfl⟩

/-- `BackupCluster.unlock_shards`.  `results` holds one entry per shard
in order: `none` when `shard.unlock()` returns, `some msg` when it
raises with `str(e) = msg`.  The accumulator mirrors
`exceptions += str(e)` on a Python *list*, which extends it by the
characters of the string; the first component counts shards attempted.
At the end, `", ".join(exceptions)` joins the accumulated one-character
strings. -/
def unlock_shards (results : List (Option String)) : Nat × Except String Unit :=
  let p := results.foldl
    (fun (acc : Nat × List Char) r =>
      (acc.1 + 1,
        match r with
        | none => acc.2
        | some msg => acc.2 ++ msg.toList))
    (0, ([] : List Char))
  (p.1,
    if p.2.length ≠ 0 then
      Except.error (String.intercalate ", " (p.2.map (fun c => String.mk [c])))
    else Except.ok ())

/-- Modelled from the spec (§9 declares it canonical): collect one
message per failed shard and join them on abort. -/
def unlock_shards_intended (results : List (Option String)) : Except String Unit :=
  let msgs := results.filterMap id
  if msgs.length ≠ 0 then Except.error (String.intercalate ", " msgs) else Except.ok ()

/-- C8 (code bug): both shards are attempted even though the first
unlock raises, and a single exception is raised afterwards, but its
message joins the accumulated *characters* of the per-shard message —
`"b, o, o, m"` — not the per-shard messages themselves (`"boom"` under
the canonical accumulation); with no failures it returns normally. -/
theorem c8_unlock_accumulation_bug :
    (unlock_shards [some "boom", none]).1 = 2
      ∧ (unlock_shards [some "boom", none]).2 = Except.error "b, o, o, m"
      ∧ unlock_shards_intended [some "boom", none] = Except.error "boom"
      ∧ ¬ ("b, o, o, m" : String) = "boom"
      ∧ (unlock_shards [none, none]).2 = Except.ok () := by
  refine ⟨rfl, rfl, rfl, by decide, rfl⟩

end MongoClusterBackup
